import Mathlib

/-!
Verification of the Photo-FACE analysis-and-match engine.

Shallow embedding of the Python sources:
  * `app/services/analyzer.py`  — face filtering, clothing-color region derivation
  * `app/services/processor.py` — pipeline `process_image`, batch `process_all_pending`,
                                  watcher queue
  * `app/services/searcher.py`  — face / color matching and combined search
  * `app/database.py`           — feature store (list of records, lookup by filename)

Pixel arithmetic is modelled over `ℤ`/`ℚ` with Python's `int()` truncation made
explicit; floating-point numbers in the scoring path are idealised as real
numbers, with `Real.sqrt` for Python's `** 0.5`.
-/

namespace PhotoFace

/-- Python `int(q)`: truncation toward zero. -/
def pyInt (q : ℚ) : ℤ := if 0 ≤ q then ⌊q⌋ else -⌊-q⌋

/-! ### Analyzer data (`analyzer.py`) -/

/-- A detected face location as returned by `face_recognition.face_locations`:
the tuple `(top, right, bottom, left)`. -/
structure FaceLoc where
  top : ℤ
  right : ℤ
  bottom : ℤ
  left : ℤ
deriving DecidableEq, Repr

/-- One entry of the `faces` list built by `ImageAnalyzer._analyze_faces`:
the location plus the derived `width`, `height` and `center` fields. -/
structure FaceBox where
  loc : FaceLoc
  width : ℤ
  height : ℤ
  centerX : ℤ
  centerY : ℤ
deriving DecidableEq, Repr

/-- The `face_data` dict constructed in `_analyze_faces` for a kept location
(`center` uses Python's float division then `int()`). -/
def mkFaceBox (loc : FaceLoc) : FaceBox :=
  { loc := loc
    width := loc.right - loc.left
    height := loc.bottom - loc.top
    centerX := pyInt (((loc.left + loc.right : ℤ) : ℚ) / 2)
    centerY := pyInt (((loc.top + loc.bottom : ℤ) : ℚ) / 2) }

/-- Embedding of `ImageAnalyzer._analyze_faces`, restricted to its box logic: the detector
output is a black-box input; boxes whose width or height is below
`min_face_size` are dropped, the rest are formatted.  (The per-box embeddings
are computed by the black-box embedder and are not needed here.) -/
def analyzeFaces (minSize : ℤ) (detected : List FaceLoc) : List FaceBox :=
  (detected.filter (fun loc =>
      decide (minSize ≤ loc.right - loc.left) && decide (minSize ≤ loc.bottom - loc.top))).map
    mkFaceBox

/-- A YOLO/HOG person bounding box (`bbox` dict: x, y, width, height). -/
structure PersonBBox where
  x : ℤ
  y : ℤ
  width : ℤ
  height : ℤ
deriving DecidableEq, Repr

/-- A rectangular sub-region of the image, as recorded in the `region`
field of a clothing-color entry. -/
structure Region where
  x : ℤ
  y : ℤ
  width : ℤ
  height : ℤ
deriving DecidableEq, Repr

/-- One dominant-color swatch as produced by `_extract_dominant_colors`. -/
structure SwatchI where
  red : ℤ
  green : ℤ
  blue : ℤ
  percentage : ℚ
  name : String
  brightness : String
deriving DecidableEq, Repr

/-- One clothing-color entry (`source`, `index`, `colors`, `region`). -/
structure ColorSetA where
  source : String
  index : ℕ
  colors : List SwatchI
  region : Region
deriving DecidableEq, Repr

/-- Body region derived from a face in `_analyze_clothing_colors`:
starts at the face's bottom edge, horizontally widened by `bodyWidthRatio`,
with height `face height × bodyRatio`; left is clamped to 0 first, then the
right/bottom edges are clamped to the image size. -/
def bodyRegionFromFace (imgW imgH : ℤ) (bodyWidthRatio bodyRatio : ℚ) (loc : FaceLoc) :
    Region :=
  let faceWidth := loc.right - loc.left
  let faceHeight := loc.bottom - loc.top
  let bodyTop := loc.bottom
  let bodyLeft := loc.left - pyInt ((faceWidth : ℚ) * (bodyWidthRatio - 1) / 2)
  let bodyWidth := pyInt ((faceWidth : ℚ) * bodyWidthRatio)
  let bodyHeight := pyInt ((faceHeight : ℚ) * bodyRatio)
  let bodyLeft' := max 0 bodyLeft
  let bodyRight := min imgW (bodyLeft' + bodyWidth)
  let bodyBottom := min imgH (bodyTop + bodyHeight)
  { x := bodyLeft', y := bodyTop, width := bodyRight - bodyLeft', height := bodyBottom - bodyTop }

/-- Body region derived from a person box in `_analyze_clothing_colors`:
the middle band `y + int(0.2 h) .. y + int(0.6 h)` × `x + int(0.1 w) .. x + int(0.9 w)`
(no clamping to the image occurs in this branch). -/
def bodyRegionFromPerson (b : PersonBBox) : Region :=
  let bodyTop := b.y + pyInt ((b.height : ℚ) * (2 / 10))
  let bodyBottom := b.y + pyInt ((b.height : ℚ) * (6 / 10))
  let bodyLeft := b.x + pyInt ((b.width : ℚ) * (1 / 10))
  let bodyRight := b.x + pyInt ((b.width : ℚ) * (9 / 10))
  { x := bodyLeft, y := bodyTop, width := bodyRight - bodyLeft, height := bodyBottom - bodyTop }

/-- Embedding of `ImageAnalyzer._analyze_clothing_colors`: one ColorSet per face; person-based
sets are appended only when no faces were found but persons exist.  The color
clusterer is a black-box parameter `extract` from a region to its swatches. -/
def analyzeClothingColors (imgW imgH : ℤ) (bodyWidthRatio bodyRatio : ℚ)
    (extract : Region → List SwatchI)
    (faces : List FaceLoc) (persons : List PersonBBox) : List ColorSetA :=
  let fromFaces := faces.enum.map (fun p =>
    let reg := bodyRegionFromFace imgW imgH bodyWidthRatio bodyRatio p.2
    { source := "face", index := p.1, colors := extract reg, region := reg })
  let fromPersons := persons.enum.map (fun p =>
    let reg := bodyRegionFromPerson p.2
    { source := "person", index := p.1, colors := extract reg, region := reg })
  fromFaces ++ (if faces.isEmpty && !persons.isEmpty then fromPersons else [])

/-! ### Pipeline (`processor.py`) -/

/-- A stored person entry (`bbox`, `confidence`, `method`). -/
structure PersonRec where
  bbox : PersonBBox
  confidence : ℚ
  method : String
deriving DecidableEq, Repr

/-- The dict returned by `ImageAnalyzer.analyze_image` on success. -/
structure AnalysisResult where
  faces : List FaceBox
  faceCount : ℕ
  faceEncodings : List (List ℚ)
  persons : List PersonRec
  personCount : ℕ
  clothingColors : List ColorSetA
deriving DecidableEq, Repr

/-- A record of the feature store (`Database.images` values), as built by
`ImageProcessor.process_image` / `Database.add_image`.  Timestamps and the
generated id are irrelevant to the claims and omitted. -/
structure StoredImage where
  filename : String
  originalPath : String
  processedPath : String
  outputPath : String
  width : ℤ
  height : ℤ
  faces : List FaceBox
  faceCount : ℕ
  faceEncodings : List (List ℚ)
  persons : List PersonRec
  personCount : ℕ
  clothingColors : List ColorSetA
deriving DecidableEq, Repr

/-- The effectful environment of one `process_image` call: which steps raise,
and the values the external world supplies.  `analysis` is the return value of
`analyze_image`, which catches every exception internally and returns `None`
(modelled `none`) in that case — it never raises into the pipeline. -/
structure ProcEnv where
  validImage : Bool
  loadFails : Bool
  cropFails : Bool
  tempSaveFails : Bool
  analysis : Option AnalysisResult
  annotateOk : Bool
  annotSaveFails : Bool
  outputSaveFails : Bool
  addFails : Bool
  cleanupFails : Bool
  filename : String
  origPath : String
  annotPath : String
  outPath : String
  imgW : ℤ
  imgH : ℤ
deriving DecidableEq, Repr

/-- The `image_data` dict built in step 7 of `process_image`: every analysis
field falls back to an empty value when `analysis` is `None`. -/
def mkImageData (env : ProcEnv) : StoredImage :=
  { filename := env.filename
    originalPath := env.origPath
    processedPath := if env.annotateOk then env.annotPath else ""
    outputPath := env.outPath
    width := env.imgW
    height := env.imgH
    faces := (env.analysis.map (·.faces)).getD []
    faceCount := (env.analysis.map (·.faceCount)).getD 0
    faceEncodings := (env.analysis.map (·.faceEncodings)).getD []
    persons := (env.analysis.map (·.persons)).getD []
    personCount := (env.analysis.map (·.personCount)).getD 0
    clothingColors := (env.analysis.map (·.clothingColors)).getD [] }

/-- Embedding of `ImageProcessor.process_image` over the feature store: a step that raises
before `db.add_image` makes the outer `except` return `None` with the store
unchanged; a raising cleanup step (temp unlink / original delete) happens after
the record was already added, so it returns `None` with the record stored. -/
def processImage (env : ProcEnv) (db : List StoredImage) :
    Option StoredImage × List StoredImage :=
  if !env.validImage then (none, db)
  else if env.loadFails then (none, db)
  else if env.cropFails then (none, db)
  else if env.tempSaveFails then (none, db)
  else if env.annotateOk && env.annotSaveFails then (none, db)
  else if env.outputSaveFails then (none, db)
  else if env.addFails then (none, db)
  else
    let r := mkImageData env
    if env.cleanupFails then (none, db ++ [r]) else (some r, db ++ [r])

/-- Embedding of `Database.get_image_by_filename`: first record whose `filename` matches. -/
def getImageByFilename (db : List StoredImage) (name : String) : Option StoredImage :=
  db.find? (fun r => r.filename == name)

/-- The counters returned by `ImageProcessor.process_all_pending`. -/
structure BatchResult where
  processed : ℕ
  errors : ℕ
  skipped : ℕ
  files : List String
deriving DecidableEq, Repr

/-- Embedding of `ImageProcessor.process_all_pending`: iterate the intake directory (each
entry is a `ProcEnv`, its `filename` being the directory entry's name), drop
invalid entries silently, skip files already stored by filename, and run
`process_image` on the rest, counting successes and failures. -/
def processAllPending : List ProcEnv → List StoredImage → BatchResult × List StoredImage
  | [], db => (⟨0, 0, 0, []⟩, db)
  | f :: fs, db =>
    if !f.validImage then processAllPending fs db
    else if (getImageByFilename db f.filename).isSome then
      let r := processAllPending fs db
      (⟨r.1.processed, r.1.errors, r.1.skipped + 1, r.1.files⟩, r.2)
    else
      match processImage f db with
      | (some _, db') =>
        let r := processAllPending fs db'
        (⟨r.1.processed + 1, r.1.errors, r.1.skipped, f.filename :: r.1.files⟩, r.2)
      | (none, db') =>
        let r := processAllPending fs db'
        (⟨r.1.processed, r.1.errors + 1, r.1.skipped, r.1.files⟩, r.2)

/-! ### Watcher queue (`processor.py`, `FileWatcher`) -/

/-- Embedding of `FileWatcher.add_to_queue`: append unless the path is already queued. -/
def addToQueue (q : List String) (p : String) : List String :=
  if p ∈ q then q else q ++ [p]

/-- One iteration of the drain loop in `_start_processing_thread`: pop the
oldest entry (index 0) for processing, or do nothing when the queue is empty. -/
def popFront (q : List String) : Option (String × List String) :=
  match q with
  | [] => none
  | p :: rest => some (p, rest)

/-- The order in which a drain loop with no concurrent enqueues processes the
queue: repeatedly popping the front. -/
def drainOrder : List String → List String
  | [] => []
  | p :: rest => p :: drainOrder rest

/-! ### Searcher (`searcher.py`)

Numbers in the scoring path are Python floats; they are idealised as real
numbers, `x ** 0.5` becoming `Real.sqrt`.  The `face_recognition` module is
modelled as available. -/

/-- An RGB triple as read from a query color / stored swatch dict. -/
structure QColor where
  red : ℝ
  green : ℝ
  blue : ℝ

/-- A stored swatch as read back by the searcher (`img_color.get("rgb")`). -/
structure SwatchS where
  rgb : QColor

/-- A stored clothing-color set as read back by the searcher
(`color_set.get("colors", [])`). -/
structure ColorSetS where
  colors : List SwatchS

/-- A feature-store record as the searcher reads it (`image_data.get(...)`). -/
structure ImageRec where
  id : String
  filename : String
  faceEncodings : List (List ℝ)
  clothingColors : List ColorSetS

/-- Embedding of `ImageSearcher._color_distance`: Euclidean distance in RGB space. -/
noncomputable def colorDistance (c1 c2 : QColor) : ℝ :=
  Real.sqrt ((c1.red - c2.red) ^ 2 + (c1.green - c2.green) ^ 2 + (c1.blue - c2.blue) ^ 2)

/-- Embedding of `np.linalg.norm(search_np - encoding_np)`: Euclidean distance of two
encodings (vectors of equal length, paired componentwise). -/
noncomputable def euclid (q e : List ℝ) : ℝ :=
  Real.sqrt (((q.zip e).map (fun p => (p.1 - p.2) ^ 2)).sum)

/-- The dict returned by `ImageSearcher._match_face`.  The reported distance is
`round(best_distance, 4)` in the source; the rounding is presentation-only and
omitted.  `matchedFaceIndex` is `none` for the no-encodings early return, which
lacks the key. -/
structure FaceMatch where
  score : ℝ
  matched : Bool
  distance : ℝ
  matchedFaceIndex : Option ℤ

/-- The loop of `_match_face`: best distance starts at `1.0`, best index at
`-1`, and only strictly smaller distances replace the best.  The third
component is the running enumeration index. -/
noncomputable def faceFold (q : List ℝ) (encs : List (List ℝ)) : ℝ × ℤ × ℤ :=
  encs.foldl
    (fun acc e =>
      let d := euclid q e
      if d < acc.1 then (d, acc.2.2, acc.2.2 + 1) else (acc.1, acc.2.1, acc.2.2 + 1))
    (1, -1, 0)

/-- Embedding of `ImageSearcher._match_face` (with the `face_recognition` module present). -/
noncomputable def matchFace (θ : ℝ) (q : List ℝ) (encs : List (List ℝ)) : FaceMatch :=
  if encs.isEmpty then ⟨0, false, 1, none⟩
  else
    let best := (faceFold q encs).1
    let idx := (faceFold q encs).2.1
    if best ≤ θ then ⟨max 0 (100 - best / θ * 50), true, best, some idx⟩
    else ⟨max 0 (50 - (best - θ) / (1 - θ) * 50), false, best, some idx⟩

/-- The list `all_image_colors` in `_match_colors`: every swatch of every ColorSet. -/
def allImageColors (sets : List ColorSetS) : List SwatchS :=
  (sets.map (fun s => s.colors)).flatten

/-- The inner loop of `_match_colors` for one query color: minimum distance to
the flattened swatches.  The source folds with `best = float('inf')` and a
strict `<`, so the first swatch always replaces the initial value; this is the
same fold started from the first distance. -/
noncomputable def bestColorDist (sc : QColor) (swatches : List SwatchS) : ℝ :=
  match swatches with
  | [] => 0
  | s :: rest =>
    rest.foldl
      (fun b sw => if colorDistance sc sw.rgb < b then colorDistance sc sw.rgb else b)
      (colorDistance sc s.rgb)

/-- Per-query-color score in `_match_colors`: note the `d ≤ threshold` branch
has no `max` (it is nonnegative anyway) and the `d > threshold` branch divides
by `threshold`. -/
noncomputable def colorScorePerQuery (θ d : ℝ) : ℝ :=
  if d ≤ θ then 100 - d / θ * 50 else max 0 (50 - (d - θ) / θ * 50)

/-- Embedding of `ImageSearcher._match_colors`, reduced to its returned score (the
`matched_colors` detail payload carries no information used by `search`). -/
noncomputable def matchColors (θ : ℝ) (searchColors : List QColor)
    (imageColors : List ColorSetS) : ℝ :=
  if searchColors.isEmpty || imageColors.isEmpty then 0
  else
    let all := allImageColors imageColors
    if all.isEmpty then 0
    else
      (searchColors.map (fun sc => colorScorePerQuery θ (bestColorDist sc all))).sum /
        searchColors.length

/-- Per-query-color score as the specification describes it: the same
piecewise formula as the face modality, whose second branch divides by
`(1 - threshold)`. -/
noncomputable def colorScorePerQuerySpec (θ d : ℝ) : ℝ :=
  if d ≤ θ then max 0 (100 - d / θ * 50) else max 0 (50 - (d - θ) / (1 - θ) * 50)

/-- One entry of the result list of `ImageSearcher.search` (before the final
`to_dict` rendering, which only rounds for display). -/
structure SearchResult where
  imageId : String
  filename : String
  score : ℝ
  matchType : String
  faceScore : ℝ
  colorScore : ℝ

/-- The body of the `for image_data in all_images` loop of `search`, up to the
minimum-score check: `None` both for the `continue` when neither criterion is
given.  A `None`/empty query list is falsy in Python, modelled as `[]`. -/
noncomputable def scoreRecord (θf θc fw cw : ℝ) (fe : List ℝ) (cols : List QColor)
    (img : ImageRec) : Option SearchResult :=
  let faceScore := if !fe.isEmpty then (matchFace θf fe img.faceEncodings).score else 0
  let colorScore := if !cols.isEmpty then matchColors θc cols img.clothingColors else 0
  if !fe.isEmpty && !cols.isEmpty then
    some ⟨img.id, img.filename, faceScore * fw + colorScore * cw, "combined", faceScore, colorScore⟩
  else if !fe.isEmpty then some ⟨img.id, img.filename, faceScore, "face", faceScore, colorScore⟩
  else if !cols.isEmpty then some ⟨img.id, img.filename, colorScore, "color", faceScore, colorScore⟩
  else none

/-- Descending order on result scores: the sort key of
`results.sort(key=lambda x: x.score, reverse=True)`. -/
def scoreGE (a b : SearchResult) : Prop := b.score ≤ a.score

noncomputable instance : DecidableRel scoreGE := fun _ _ => Real.decidableLE _ _

instance : IsTotal SearchResult scoreGE := ⟨fun a b => le_total b.score a.score⟩

instance : IsTrans SearchResult scoreGE := ⟨fun _ _ _ h1 h2 => le_trans h2 h1⟩

/-- The effective limit `limit = limit or self.max_results`: `None` and `0` are falsy. -/
def effLimit (limit : Option ℕ) (maxResults : ℕ) : ℕ :=
  match limit with
  | none => maxResults
  | some 0 => maxResults
  | some n => n

/-- The records passing the minimum-score floor, in feature-store iteration
order: the `results` list of `search` just before sorting. -/
noncomputable def searchQualifying (θf θc : ℝ) (fe : List ℝ) (cols : List QColor)
    (fw cw : ℝ) (records : List ImageRec) : List SearchResult :=
  records.filterMap (fun img =>
    match scoreRecord θf θc fw cw fe cols img with
    | none => none
    | some r => if (20 : ℝ) ≤ r.score then some r else none)

/-- Embedding of `ImageSearcher.search`: score every record, keep those at or above the
floor of 20, sort stably by score descending, truncate to the limit. -/
noncomputable def search (θf θc : ℝ) (maxResults : ℕ) (fe : List ℝ) (cols : List QColor)
    (fw cw : ℝ) (limit : Option ℕ) (records : List ImageRec) : List SearchResult :=
  ((searchQualifying θf θc fe cols fw cw records).insertionSort scoreGE).take
    (effLimit limit maxResults)

/-- Minimum of a list of reals (0 for the empty list; used only on nonempty
lists, where it is the least element). -/
noncomputable def listMin : List ℝ → ℝ
  | [] => 0
  | [x] => x
  | x :: y :: t => min x (listMin (y :: t))

/-- The face-modality score as a function of the best distance: the
specification's piecewise formula, identical to the code of `_match_face`. -/
noncomputable def faceScoreFormula (θ d : ℝ) : ℝ :=
  if d ≤ θ then max 0 (100 - d / θ * 50) else max 0 (50 - (d - θ) / (1 - θ) * 50)

/-- Per-query-color score as forced by the code of `_match_colors`: the
claim's formula with the second branch divided by `threshold` instead of
`(1 - threshold)` (and the harmless `max 0` on the first branch). -/
noncomputable def colorScorePerQueryAmended (θ d : ℝ) : ℝ :=
  if d ≤ θ then max 0 (100 - d / θ * 50) else max 0 (50 - (d - θ) / θ * 50)

/-- A pipeline environment in which every step succeeds but the analyzer
returned `None`; used to instantiate batch-processing runs. -/
def sampleEnv (name : String) : ProcEnv :=
  { validImage := true, loadFails := false, cropFails := false, tempSaveFails := false
    analysis := none, annotateOk := false, annotSaveFails := false, outputSaveFails := false
    addFails := false, cleanupFails := false
    filename := name, origPath := "", annotPath := "", outPath := ""
    imgW := 0, imgH := 0 }

/-! ## Theorems -/

/-- The Python truncation of a nonnegative rational is its floor. -/
theorem pyInt_of_nonneg {q : ℚ} (h : 0 ≤ q) : pyInt q = ⌊q⌋ := by
  simp [pyInt, h]

/-- Evaluation rule for `pyInt` at nonnegative arguments. -/
theorem pyInt_eq_of_nonneg (q : ℚ) (n : ℤ) (hn : 0 ≤ n) (h1 : (n : ℚ) ≤ q)
    (h2 : q < (n : ℚ) + 1) : pyInt q = n := by
  have h0 : (0 : ℚ) ≤ q := le_trans (by exact_mod_cast hn) h1
  rw [pyInt, if_pos h0]
  exact Int.floor_eq_iff.mpr ⟨h1, h2⟩

/-- C5, as stated, is false: for a face box of odd width the stored region
width is the truncation `int(width * 1.5)`, not the exact product.  Face box
left=100, top=50, right=181, bottom=130 with the default ratios in a large
image yields width 121, but 81 × 1.5 = 121.5. -/
theorem C5_counterexample :
    ((bodyRegionFromFace 10000 10000 (3 / 2) (5 / 2)
          { top := 50, right := 181, bottom := 130, left := 100 }).width : ℚ) ≠
      ((181 - 100 : ℤ) : ℚ) * (3 / 2) := by
  have e1 : pyInt ((((181 : ℤ) - 100 : ℤ) : ℚ) * ((3 / 2 : ℚ) - 1) / 2) = 20 :=
    pyInt_eq_of_nonneg _ 20 (by norm_num) (by norm_num) (by norm_num)
  have e2 : pyInt ((((181 : ℤ) - 100 : ℤ) : ℚ) * (3 / 2 : ℚ)) = 121 :=
    pyInt_eq_of_nonneg _ 121 (by norm_num) (by norm_num) (by norm_num)
  simp only [bodyRegionFromFace, e1, e2]
  norm_num

/-- C5 (amended): the body region derived from a face starts at the face's
bottom edge; its left edge is `face.left - int(face_width*(bodyWidthRatio-1)/2)`,
its width `int(face_width*bodyWidthRatio)` and its height
`int(face_height*bodyRatio)`, where `int` truncates toward zero, all clamped to
the image bounds (stated here for regions that fit inside the image); in
particular the face (left=100, top=50, right=180, bottom=130) with ratios
1.5/2.5 in a large image yields the region (left=80, top=130, width=120,
height=200). -/
theorem C5_body_region_from_face (imgW imgH : ℤ) (bwr br : ℚ) (loc : FaceLoc)
    (h1 : 0 ≤ loc.left - pyInt (((loc.right - loc.left : ℤ) : ℚ) * (bwr - 1) / 2))
    (h2 : loc.left - pyInt (((loc.right - loc.left : ℤ) : ℚ) * (bwr - 1) / 2) +
        pyInt (((loc.right - loc.left : ℤ) : ℚ) * bwr) ≤ imgW)
    (h3 : loc.bottom + pyInt (((loc.bottom - loc.top : ℤ) : ℚ) * br) ≤ imgH) :
    bodyRegionFromFace imgW imgH bwr br loc =
      { x := loc.left - pyInt (((loc.right - loc.left : ℤ) : ℚ) * (bwr - 1) / 2)
        y := loc.bottom
        width := pyInt (((loc.right - loc.left : ℤ) : ℚ) * bwr)
        height := pyInt (((loc.bottom - loc.top : ℤ) : ℚ) * br) } ∧
    bodyRegionFromFace 10000 10000 (3 / 2) (5 / 2)
        { top := 50, right := 180, bottom := 130, left := 100 } =
      { x := 80, y := 130, width := 120, height := 200 } := by
  constructor
  · simp only [bodyRegionFromFace]
    rw [max_eq_right h1, min_eq_right h2, min_eq_right h3]
    simp only [Region.mk.injEq]
    refine ⟨trivial, trivial, by omega, by omega⟩
  · have e1 : pyInt ((((180 : ℤ) - 100 : ℤ) : ℚ) * ((3 / 2 : ℚ) - 1) / 2) = 20 :=
      pyInt_eq_of_nonneg _ 20 (by norm_num) (by norm_num) (by norm_num)
    have e2 : pyInt ((((180 : ℤ) - 100 : ℤ) : ℚ) * (3 / 2 : ℚ)) = 120 :=
      pyInt_eq_of_nonneg _ 120 (by norm_num) (by norm_num) (by norm_num)
    have e3 : pyInt ((((130 : ℤ) - 50 : ℤ) : ℚ) * (5 / 2 : ℚ)) = 200 :=
      pyInt_eq_of_nonneg _ 200 (by norm_num) (by norm_num) (by norm_num)
    simp only [bodyRegionFromFace, e1, e2, e3]
    norm_num

/-- Closed instantiation of `C5_body_region_from_face` at the specification's
example box inside a 10000×10000 image. -/
theorem C5_body_region_from_face_witness :
    bodyRegionFromFace 10000 10000 (3 / 2) (5 / 2)
        { top := 50, right := 180, bottom := 130, left := 100 } =
      { x := 80, y := 130, width := 120, height := 200 } :=
  (C5_body_region_from_face 10000 10000 (3 / 2) (5 / 2)
      { top := 50, right := 180, bottom := 130, left := 100 }
      (by
        rw [show pyInt ((((180 : ℤ) - 100 : ℤ) : ℚ) * ((3 / 2 : ℚ) - 1) / 2) = 20 from
          pyInt_eq_of_nonneg _ 20 (by norm_num) (by norm_num) (by norm_num)]
        norm_num)
      (by
        rw [show pyInt ((((180 : ℤ) - 100 : ℤ) : ℚ) * ((3 / 2 : ℚ) - 1) / 2) = 20 from
            pyInt_eq_of_nonneg _ 20 (by norm_num) (by norm_num) (by norm_num),
          show pyInt ((((180 : ℤ) - 100 : ℤ) : ℚ) * (3 / 2 : ℚ)) = 120 from
            pyInt_eq_of_nonneg _ 120 (by norm_num) (by norm_num) (by norm_num)]
        norm_num)
      (by
        rw [show pyInt ((((130 : ℤ) - 50 : ℤ) : ℚ) * (5 / 2 : ℚ)) = 200 from
          pyInt_eq_of_nonneg _ 200 (by norm_num) (by norm_num) (by norm_num)]
        norm_num)).2

/-- C6, as stated, is false in its region formula: the code truncates each
boundary with Python `int()`.  For a person box x=0, y=0, w=10, h=7 (and no
faces) the produced person ColorSet has region top 1, but the claimed value
`y + 0.2·h` is 1.4. -/
theorem C6_counterexample :
    (analyzeClothingColors 1000 1000 (3 / 2) (5 / 2) (fun _ => []) []
          [{ x := 0, y := 0, width := 10, height := 7 }]).map
        (fun s => (s.source, (s.region.y : ℚ))) =
      [("person", (1 : ℚ))] ∧
    (1 : ℚ) ≠ (0 : ℚ) + 2 / 10 * 7 := by
  have hreg : bodyRegionFromPerson { x := 0, y := 0, width := 10, height := 7 } =
      { x := 1, y := 1, width := 8, height := 3 } := by
    simp only [bodyRegionFromPerson]
    rw [show pyInt (((7 : ℤ) : ℚ) * (2 / 10)) = 1 from
        pyInt_eq_of_nonneg _ 1 (by norm_num) (by norm_num) (by norm_num),
      show pyInt (((7 : ℤ) : ℚ) * (6 / 10)) = 4 from
        pyInt_eq_of_nonneg _ 4 (by norm_num) (by norm_num) (by norm_num),
      show pyInt (((10 : ℤ) : ℚ) * (1 / 10)) = 1 from
        pyInt_eq_of_nonneg _ 1 (by norm_num) (by norm_num) (by norm_num),
      show pyInt (((10 : ℤ) : ℚ) * (9 / 10)) = 9 from
        pyInt_eq_of_nonneg _ 9 (by norm_num) (by norm_num) (by norm_num)]
    norm_num
  constructor
  · simp [analyzeClothingColors, hreg]
  · norm_num

/-- C6 (amended): person-sourced ColorSets are produced exactly when the face
list is empty (one per person, in order), and each region is the middle band of
its person box with every boundary truncated by Python `int()`:
top = y + int(0.2·h), bottom = y + int(0.6·h), left = x + int(0.1·w),
right = x + int(0.9·w). -/
theorem C6_person_color_sets (imgW imgH : ℤ) (bwr br : ℚ) (extract : Region → List SwatchI)
    (faces : List FaceLoc) (persons : List PersonBBox) :
    (∀ s ∈ analyzeClothingColors imgW imgH bwr br extract faces persons,
        s.source = "person" → faces = [] ∧ persons ≠ []) ∧
    (faces = [] →
      analyzeClothingColors imgW imgH bwr br extract faces persons =
        persons.enum.map (fun p =>
          { source := "person", index := p.1, colors := extract (bodyRegionFromPerson p.2),
            region := bodyRegionFromPerson p.2 })) ∧
    (∀ b : PersonBBox,
        (bodyRegionFromPerson b).y = b.y + pyInt ((b.height : ℚ) * (2 / 10)) ∧
        (bodyRegionFromPerson b).y + (bodyRegionFromPerson b).height =
          b.y + pyInt ((b.height : ℚ) * (6 / 10)) ∧
        (bodyRegionFromPerson b).x = b.x + pyInt ((b.width : ℚ) * (1 / 10)) ∧
        (bodyRegionFromPerson b).x + (bodyRegionFromPerson b).width =
          b.x + pyInt ((b.width : ℚ) * (9 / 10))) := by
  refine ⟨?_, ?_, ?_⟩
  · intro s hs hsrc
    simp only [analyzeClothingColors, List.mem_append] at hs
    rcases hs with hs | hs
    · exfalso
      simp only [List.mem_map] at hs
      obtain ⟨p, _, rfl⟩ := hs
      simp at hsrc
    · by_cases hc : faces.isEmpty && !persons.isEmpty
      · rw [if_pos hc] at hs
        simp only [Bool.and_eq_true, Bool.not_eq_true', List.isEmpty_eq_false,
          List.isEmpty_iff] at hc
        exact ⟨hc.1, by simpa using hc.2⟩
      · rw [if_neg hc] at hs
        simp at hs
  · intro hf
    subst hf
    by_cases hp : persons = []
    · subst hp
      simp [analyzeClothingColors]
    · simp only [analyzeClothingColors, List.enum_nil, List.map_nil, List.isEmpty_nil,
        List.nil_append, Bool.true_and]
      rw [if_pos (by simpa using hp)]
  · intro b
    simp only [bodyRegionFromPerson]
    refine ⟨trivial, by omega, trivial, by omega⟩

/-- C7, as stated, is false: its "consequently no degenerate boxes" part needs
a positive configured minimum.  With `min_face_size = 0` a detected box of zero
width and height passes the filter and is stored with `bottom = top`. -/
theorem C7_counterexample :
    analyzeFaces 0 [{ top := 0, right := 0, bottom := 0, left := 0 }] =
      [mkFaceBox { top := 0, right := 0, bottom := 0, left := 0 }] ∧
    (mkFaceBox { top := 0, right := 0, bottom := 0, left := 0 }).loc.bottom =
      (mkFaceBox { top := 0, right := 0, bottom := 0, left := 0 }).loc.top := by
  constructor
  · simp [analyzeFaces]
  · rfl

/-- C7 (amended): provided the configured minimum face size is at least 1,
every face box surviving `_analyze_faces` has width and height at least the
minimum (its width/height fields agreeing with its coordinates), and
consequently is non-degenerate: `bottom > top` and `right > left`. -/
theorem C7_min_face_size (minSize : ℤ) (detected : List FaceLoc)
    (hmin : 1 ≤ minSize) :
    ∀ b ∈ analyzeFaces minSize detected,
      minSize ≤ b.width ∧ minSize ≤ b.height ∧
      b.width = b.loc.right - b.loc.left ∧ b.height = b.loc.bottom - b.loc.top ∧
      b.loc.top < b.loc.bottom ∧ b.loc.left < b.loc.right := by
  intro b hb
  simp only [analyzeFaces, List.mem_map, List.mem_filter, Bool.and_eq_true,
    decide_eq_true_eq] at hb
  obtain ⟨loc, ⟨_, hw, hh⟩, rfl⟩ := hb
  refine ⟨hw, hh, rfl, rfl, by simp only [mkFaceBox]; omega, by simp only [mkFaceBox]; omega⟩

/-- Closed instantiation of `C7_min_face_size`: with the default minimum 20, a
30×40 detected box is stored and is non-degenerate. -/
theorem C7_min_face_size_witness :
    (1 : ℤ) ≤ 20 ∧
    (20 ≤ (mkFaceBox { top := 0, right := 30, bottom := 40, left := 0 }).width ∧
      20 ≤ (mkFaceBox { top := 0, right := 30, bottom := 40, left := 0 }).height ∧
      (mkFaceBox { top := 0, right := 30, bottom := 40, left := 0 }).width =
        (mkFaceBox { top := 0, right := 30, bottom := 40, left := 0 }).loc.right -
          (mkFaceBox { top := 0, right := 30, bottom := 40, left := 0 }).loc.left ∧
      (mkFaceBox { top := 0, right := 30, bottom := 40, left := 0 }).height =
        (mkFaceBox { top := 0, right := 30, bottom := 40, left := 0 }).loc.bottom -
          (mkFaceBox { top := 0, right := 30, bottom := 40, left := 0 }).loc.top ∧
      (mkFaceBox { top := 0, right := 30, bottom := 40, left := 0 }).loc.top <
        (mkFaceBox { top := 0, right := 30, bottom := 40, left := 0 }).loc.bottom ∧
      (mkFaceBox { top := 0, right := 30, bottom := 40, left := 0 }).loc.left <
        (mkFaceBox { top := 0, right := 30, bottom := 40, left := 0 }).loc.right) :=
  ⟨by norm_num,
    C7_min_face_size 20 [{ top := 0, right := 30, bottom := 40, left := 0 }] (by norm_num)
      (mkFaceBox { top := 0, right := 30, bottom := 40, left := 0 })
      (by norm_num [analyzeFaces, List.filter])⟩

/-- C9: the watcher queue is deduplicated (a queued path is never re-added, a
new path is appended at the tail) and drained strictly FIFO one at a time:
enqueuing distinct A, B, C into an empty queue yields the queue [A, B, C],
the drain loop pops A first (leaving [B, C]), then B, then C, and the overall
processing order is A, B, C. -/
theorem C9_watcher_fifo_dedup :
    (∀ (q : List String) (p : String), p ∈ q → addToQueue q p = q) ∧
    (∀ (q : List String) (p : String), p ∉ q → addToQueue q p = q ++ [p]) ∧
    (∀ a b c : String, a ≠ b → a ≠ c → b ≠ c →
      addToQueue (addToQueue (addToQueue [] a) b) c = [a, b, c] ∧
      popFront (addToQueue (addToQueue (addToQueue [] a) b) c) = some (a, [b, c]) ∧
      popFront [b, c] = some (b, [c]) ∧
      popFront [c] = some (c, []) ∧ popFront ([] : List String) = none ∧
      drainOrder (addToQueue (addToQueue (addToQueue [] a) b) c) = [a, b, c]) := by
  refine ⟨?_, ?_, ?_⟩
  · intro q p hp
    simp [addToQueue, hp]
  · intro q p hp
    simp [addToQueue, hp]
  · intro a b c hab hac hbc
    have h1 : addToQueue [] a = [a] := by simp [addToQueue]
    have h2 : addToQueue [a] b = [a, b] := by
      simp [addToQueue, (Ne.symm hab)]
    have h3 : addToQueue [a, b] c = [a, b, c] := by
      simp only [addToQueue]
      rw [if_neg (by simp [Ne.symm hac, Ne.symm hbc])]
      rfl
    rw [h1, h2, h3]
    exact ⟨rfl, rfl, rfl, rfl, rfl, rfl⟩

/-- C1, as stated, is false: when the analyzer returns no analysis result
(`analyze_image` caught an exception and returned `None`), `process_image`
still writes a record — with empty analysis fields — to the feature store. -/
theorem C1_counterexample :
    (sampleEnv "img.jpg").analysis = none ∧
    processImage (sampleEnv "img.jpg") [] =
      (some (mkImageData (sampleEnv "img.jpg")), [mkImageData (sampleEnv "img.jpg")]) ∧
    [mkImageData (sampleEnv "img.jpg")] ≠ ([] : List StoredImage) := by
  refine ⟨rfl, rfl, by simp⟩

/-- C1 (amended): an analysis failure does not abort `process_image` — when
every pipeline step of `process_image` itself succeeds but `analyze_image`
returned `None`, a record with empty faces/encodings/persons/colors fields is
written and the call reports success; `process_image` writes no record exactly
when one of its own steps fails first (invalid image, image load, crop,
temp-file save, annotated-image save, output save, or the store add). -/
theorem C1_process_image_failure_policy (env : ProcEnv) (db : List StoredImage) :
    (env.analysis = none → env.validImage = true → env.loadFails = false →
      env.cropFails = false → env.tempSaveFails = false → env.annotSaveFails = false →
      env.outputSaveFails = false → env.addFails = false → env.cleanupFails = false →
      processImage env db = (some (mkImageData env), db ++ [mkImageData env]) ∧
      (mkImageData env).faces = [] ∧ (mkImageData env).faceEncodings = [] ∧
      (mkImageData env).persons = [] ∧ (mkImageData env).clothingColors = [] ∧
      (mkImageData env).faceCount = 0 ∧ (mkImageData env).personCount = 0) ∧
    ((env.validImage = false ∨ env.loadFails = true ∨ env.cropFails = true ∨
        env.tempSaveFails = true ∨ (env.annotateOk = true ∧ env.annotSaveFails = true) ∨
        env.outputSaveFails = true ∨ env.addFails = true) →
      processImage env db = (none, db)) := by
  constructor
  · intro hana hv hl hc ht ha ho hadd hcl
    refine ⟨?_, ?_, ?_, ?_, ?_, ?_, ?_⟩ <;>
      simp [processImage, mkImageData, hana, hv, hl, hc, ht, ha, ho, hadd, hcl]
  · intro h
    simp only [processImage]
    rcases h with h | h | h | h | ⟨h1, h2⟩ | h | h <;> split_ifs <;> simp_all

/-- Closed instantiation of `C1_process_image_failure_policy`: the all-success
environment with failed analysis stores an empty-analysis record, and the same
environment with an unreadable image stores nothing. -/
theorem C1_process_image_failure_policy_witness :
    processImage (sampleEnv "w.jpg") [] =
      (some (mkImageData (sampleEnv "w.jpg")), [mkImageData (sampleEnv "w.jpg")]) ∧
    processImage { sampleEnv "w.jpg" with validImage := false } [] = (none, []) :=
  ⟨((C1_process_image_failure_policy (sampleEnv "w.jpg") []).1
      rfl rfl rfl rfl rfl rfl rfl rfl rfl).1,
    (C1_process_image_failure_policy { sampleEnv "w.jpg" with validImage := false } []).2
      (Or.inl rfl)⟩

/-- A call to `process_image` either leaves the store unchanged or appends its record. -/
theorem processImage_snd (env : ProcEnv) (db : List StoredImage) :
    (processImage env db).2 = db ∨ (processImage env db).2 = db ++ [mkImageData env] := by
  simp only [processImage]
  split_ifs <;> simp

/-- A successful `process_image` call appends exactly its record. -/
theorem processImage_some_eq (env : ProcEnv) (db : List StoredImage) (r0 : StoredImage)
    (db0 : List StoredImage) (h : processImage env db = (some r0, db0)) :
    r0 = mkImageData env ∧ db0 = db ++ [mkImageData env] := by
  simp only [processImage] at h
  split_ifs at h <;> simp_all
  obtain ⟨h1, h2⟩ := h
  rw [← h2, h1]

/-- A failed `process_image` call with non-raising cleanup leaves the store
unchanged. -/
theorem processImage_none_eq (env : ProcEnv) (db db0 : List StoredImage)
    (hclean : env.cleanupFails = false) (h : processImage env db = (none, db0)) :
    db0 = db := by
  simp only [processImage] at h
  split_ifs at h <;> simp_all

/-- The success/failure outcome of `process_image` is independent of the
store's contents. -/
theorem processImage_fst_indep (env : ProcEnv) (db db' : List StoredImage) :
    (processImage env db).1 = (processImage env db').1 := by
  simp only [processImage]
  split_ifs <;> rfl

/-- Filename lookup succeeds exactly when some record carries the name. -/
theorem getImageByFilename_isSome_iff (db : List StoredImage) (n : String) :
    (getImageByFilename db n).isSome = true ↔ ∃ r ∈ db, r.filename = n := by
  simp [getImageByFilename, List.find?_isSome]

/-- Batch processing only ever appends records to the store. -/
theorem processAllPending_snd_append (fs : List ProcEnv) :
    ∀ db : List StoredImage, ∃ t, (processAllPending fs db).2 = db ++ t := by
  induction fs with
  | nil => intro db; exact ⟨[], by simp [processAllPending]⟩
  | cons f fs ih =>
    intro db
    cases hv : f.validImage with
    | false => simpa [processAllPending, hv] using ih db
    | true =>
      by_cases hf : (getImageByFilename db f.filename).isSome
      · simpa [processAllPending, hv, hf] using ih db
      · rcases hpi : processImage f db with ⟨o, db'⟩
        have hdb' : db' = db ∨ db' = db ++ [mkImageData f] := by
          have := processImage_snd f db
          rw [hpi] at this
          exact this
        cases o with
        | some r0 =>
          obtain ⟨t, ht⟩ := ih db'
          refine ⟨(db'.drop db.length) ++ t, ?_⟩
          simp only [processAllPending, hv, hf, hpi]
          rw [ht]
          rcases hdb' with h | h <;> subst h <;> simp
        | none =>
          obtain ⟨t, ht⟩ := ih db'
          refine ⟨(db'.drop db.length) ++ t, ?_⟩
          simp only [processAllPending, hv, hf, hpi]
          rw [ht]
          rcases hdb' with h | h <;> subst h <;> simp

/-- Every record in the store after a batch run was either there before or is
named after one of the batch's files. -/
theorem processAllPending_mem_names (fs : List ProcEnv) :
    ∀ (db : List StoredImage) (r : StoredImage), r ∈ (processAllPending fs db).2 →
      r ∈ db ∨ r.filename ∈ fs.map (fun g => g.filename) := by
  induction fs with
  | nil => intro db r hr; simp only [processAllPending] at hr; exact Or.inl hr
  | cons f fs ih =>
    intro db r hr
    cases hv : f.validImage with
    | false =>
      simp only [processAllPending, hv] at hr
      rcases ih db r (by simpa using hr) with h | h
      · exact Or.inl h
      · exact Or.inr (by simp [h])
    | true =>
      by_cases hf : (getImageByFilename db f.filename).isSome
      · simp only [processAllPending, hv, hf] at hr
        rcases ih db r (by simpa [hf] using hr) with h | h
        · exact Or.inl h
        · exact Or.inr (by simp [h])
      · rcases hpi : processImage f db with ⟨o, db'⟩
        have hdb' : db' = db ∨ db' = db ++ [mkImageData f] := by
          have := processImage_snd f db
          rw [hpi] at this
          exact this
        have hr' : r ∈ (processAllPending fs db').2 := by
          cases o <;> simpa [processAllPending, hv, hf, hpi] using hr
        rcases ih db' r hr' with h | h
        · rcases hdb' with hd | hd
          · exact Or.inl (hd ▸ h)
          · rw [hd] at h
            rcases List.mem_append.mp h with h | h
            · exact Or.inl h
            · simp only [List.mem_singleton] at h
              subst h
              exact Or.inr (by simp [mkImageData])
        · exact Or.inr (by simp [h])

/-- Auxiliary induction for the second batch run: with distinct filenames and
non-raising cleanup, re-running the batch cannot process anything new — every
file is either skipped (when its first run stored a record, or it was already
stored) or fails again. -/
theorem processAllPending_second_aux (files : List ProcEnv) :
    ∀ db : List StoredImage,
      (files.map (fun f => f.filename)).Nodup →
      (∀ f ∈ files, f.cleanupFails = false) →
      processAllPending files (processAllPending files db).2 =
        (⟨0, (processAllPending files db).1.errors,
            (processAllPending files db).1.skipped + (processAllPending files db).1.processed,
            []⟩,
          (processAllPending files db).2) := by
  induction files with
  | nil => intro db _ _; simp [processAllPending]
  | cons f fs ih =>
    intro db hnodup hclean
    have hnodup' : (fs.map (fun g => g.filename)).Nodup :=
      (List.nodup_cons.mp (by simpa using hnodup)).2
    have hnotmem : f.filename ∉ fs.map (fun g => g.filename) :=
      (List.nodup_cons.mp (by simpa using hnodup)).1
    have hclean' : ∀ g ∈ fs, g.cleanupFails = false :=
      fun g hg => hclean g (List.mem_cons_of_mem f hg)
    cases hv : f.validImage with
    | false =>
      have e1 : processAllPending (f :: fs) db = processAllPending fs db := by
        simp [processAllPending, hv]
      have e2 : processAllPending (f :: fs) (processAllPending fs db).2 =
          processAllPending fs (processAllPending fs db).2 := by
        simp [processAllPending, hv]
      rw [e1, e2]
      exact ih db hnodup' hclean'
    | true =>
      by_cases hf : (getImageByFilename db f.filename).isSome = true
      · -- the file was already stored: skipped in both runs
        have e1 : processAllPending (f :: fs) db =
            (⟨(processAllPending fs db).1.processed, (processAllPending fs db).1.errors,
                (processAllPending fs db).1.skipped + 1, (processAllPending fs db).1.files⟩,
              (processAllPending fs db).2) := by
          simp [processAllPending, hv, hf]
        have hf2 : (getImageByFilename (processAllPending fs db).2 f.filename).isSome = true := by
          rw [getImageByFilename_isSome_iff] at hf ⊢
          obtain ⟨r, hr, hrn⟩ := hf
          obtain ⟨t, ht⟩ := processAllPending_snd_append fs db
          exact ⟨r, by rw [ht]; exact List.mem_append_left _ hr, hrn⟩
        have e2 : processAllPending (f :: fs) (processAllPending fs db).2 =
            (⟨(processAllPending fs (processAllPending fs db).2).1.processed,
                (processAllPending fs (processAllPending fs db).2).1.errors,
                (processAllPending fs (processAllPending fs db).2).1.skipped + 1,
                (processAllPending fs (processAllPending fs db).2).1.files⟩,
              (processAllPending fs (processAllPending fs db).2).2) := by
          simp [processAllPending, hv, hf2]
        rw [e1]
        dsimp only
        rw [e2, ih db hnodup' hclean']
        dsimp only
        rw [show (processAllPending fs db).1.skipped + (processAllPending fs db).1.processed + 1 =
            (processAllPending fs db).1.skipped + 1 + (processAllPending fs db).1.processed by
          omega]
      · -- not yet stored: the file is processed (or fails) in run 1
        cases hpi : processImage f db with
        | mk o db2 =>
          cases o with
          | some r0 =>
            obtain ⟨hr0, hdb2⟩ := processImage_some_eq f db r0 db2 hpi
            subst hdb2
            have e1 : processAllPending (f :: fs) db =
                (⟨(processAllPending fs (db ++ [mkImageData f])).1.processed + 1,
                    (processAllPending fs (db ++ [mkImageData f])).1.errors,
                    (processAllPending fs (db ++ [mkImageData f])).1.skipped,
                    f.filename :: (processAllPending fs (db ++ [mkImageData f])).1.files⟩,
                  (processAllPending fs (db ++ [mkImageData f])).2) := by
              simp [processAllPending, hv, hf, hpi]
            have hf2 : (getImageByFilename
                (processAllPending fs (db ++ [mkImageData f])).2 f.filename).isSome = true := by
              rw [getImageByFilename_isSome_iff]
              obtain ⟨t, ht⟩ := processAllPending_snd_append fs (db ++ [mkImageData f])
              refine ⟨mkImageData f, ?_, rfl⟩
              rw [ht]
              exact List.mem_append_left _ (by simp)
            have e2 : processAllPending (f :: fs)
                  (processAllPending fs (db ++ [mkImageData f])).2 =
                (⟨(processAllPending fs
                      (processAllPending fs (db ++ [mkImageData f])).2).1.processed,
                    (processAllPending fs
                      (processAllPending fs (db ++ [mkImageData f])).2).1.errors,
                    (processAllPending fs
                      (processAllPending fs (db ++ [mkImageData f])).2).1.skipped + 1,
                    (processAllPending fs
                      (processAllPending fs (db ++ [mkImageData f])).2).1.files⟩,
                  (processAllPending fs
                    (processAllPending fs (db ++ [mkImageData f])).2).2) := by
              simp [processAllPending, hv, hf2]
            rw [e1]
            dsimp only
            rw [e2, ih (db ++ [mkImageData f]) hnodup' hclean']
            dsimp only
            rw [show (processAllPending fs (db ++ [mkImageData f])).1.skipped +
                  (processAllPending fs (db ++ [mkImageData f])).1.processed + 1 =
                (processAllPending fs (db ++ [mkImageData f])).1.skipped +
                  ((processAllPending fs (db ++ [mkImageData f])).1.processed + 1) by
              omega]
          | none =>
            have hdb2 : db2 = db :=
              processImage_none_eq f db db2 (hclean f (by simp)) hpi
            rw [hdb2] at hpi
            have e1 : processAllPending (f :: fs) db =
                (⟨(processAllPending fs db).1.processed,
                    (processAllPending fs db).1.errors + 1,
                    (processAllPending fs db).1.skipped,
                    (processAllPending fs db).1.files⟩,
                  (processAllPending fs db).2) := by
              simp [processAllPending, hv, hf, hpi]
            have hf2 : ¬ (getImageByFilename
                (processAllPending fs db).2 f.filename).isSome = true := by
              rw [getImageByFilename_isSome_iff]
              rintro ⟨r, hr, hrn⟩
              rcases processAllPending_mem_names fs db r hr with h | h
              · exact hf (by rw [getImageByFilename_isSome_iff]; exact ⟨r, h, hrn⟩)
              · exact hnotmem (hrn ▸ h)
            have hpi2 : (processImage f (processAllPending fs db).2).1 = none := by
              rw [processImage_fst_indep f _ db, hpi]
            cases hpi2' : processImage f (processAllPending fs db).2 with
            | mk o2 db3 =>
              have ho2 : o2 = none := by rw [hpi2'] at hpi2; exact hpi2
              subst ho2
              have hdb3 : db3 = (processAllPending fs db).2 :=
                processImage_none_eq f _ db3 (hclean f (by simp)) hpi2'
              subst hdb3
              have e2 : processAllPending (f :: fs) (processAllPending fs db).2 =
                  (⟨(processAllPending fs (processAllPending fs db).2).1.processed,
                      (processAllPending fs (processAllPending fs db).2).1.errors + 1,
                      (processAllPending fs (processAllPending fs db).2).1.skipped,
                      (processAllPending fs (processAllPending fs db).2).1.files⟩,
                    (processAllPending fs (processAllPending fs db).2).2) := by
                simp [processAllPending, hv, hf2, hpi2']
              rw [e1]
              dsimp only
              rw [e2, ih db hnodup' hclean']

/-- C8, as stated, is false when the store already contained some of the
intake files: the second run's skipped count equals the first run's skipped
plus processed counts.  With "a.jpg" already stored and intake {a.jpg, b.jpg},
the first run reports processed=1 (and skipped=1), while the second run skips
both files: skipped=2 ≠ 1. -/
theorem C8_counterexample :
    (processAllPending [sampleEnv "a.jpg", sampleEnv "b.jpg"]
        [mkImageData (sampleEnv "a.jpg")]).1.processed = 1 ∧
    (processAllPending [sampleEnv "a.jpg", sampleEnv "b.jpg"]
        (processAllPending [sampleEnv "a.jpg", sampleEnv "b.jpg"]
          [mkImageData (sampleEnv "a.jpg")]).2).1.processed = 0 ∧
    (processAllPending [sampleEnv "a.jpg", sampleEnv "b.jpg"]
        (processAllPending [sampleEnv "a.jpg", sampleEnv "b.jpg"]
          [mkImageData (sampleEnv "a.jpg")]).2).1.skipped = 2 ∧
    ¬ (processAllPending [sampleEnv "a.jpg", sampleEnv "b.jpg"]
          (processAllPending [sampleEnv "a.jpg", sampleEnv "b.jpg"]
            [mkImageData (sampleEnv "a.jpg")]).2).1.skipped =
        (processAllPending [sampleEnv "a.jpg", sampleEnv "b.jpg"]
            [mkImageData (sampleEnv "a.jpg")]).1.processed := by
  refine ⟨rfl, rfl, rfl, by decide⟩

/-- C8 (amended): re-running `process_all_pending` over the same intake
directory (distinct filenames, per-file step outcomes unchanged, no
post-store cleanup failure) is idempotent on the store and processes nothing:
the second run returns processed=0, errors equal to the first run's errors,
and skipped equal to the first run's skipped plus processed counts (which is
the first run's processed count whenever nothing was skipped in the first
run). -/
theorem C8_idempotent_second_run (files : List ProcEnv) (db : List StoredImage)
    (hnodup : (files.map (fun f => f.filename)).Nodup)
    (hclean : ∀ f ∈ files, f.cleanupFails = false) :
    (processAllPending files (processAllPending files db).2).1.processed = 0 ∧
    (processAllPending files (processAllPending files db).2).1.skipped =
      (processAllPending files db).1.skipped + (processAllPending files db).1.processed ∧
    (processAllPending files (processAllPending files db).2).1.errors =
      (processAllPending files db).1.errors ∧
    (processAllPending files (processAllPending files db).2).2 =
      (processAllPending files db).2 := by
  rw [processAllPending_second_aux files db hnodup hclean]
  exact ⟨rfl, rfl, rfl, rfl⟩

/-- Closed instantiation of `C8_idempotent_second_run` on a one-file intake
over an empty store. -/
theorem C8_idempotent_second_run_witness :
    ([sampleEnv "x.jpg"].map (fun f => f.filename)).Nodup ∧
    (sampleEnv "x.jpg").cleanupFails = false ∧
    (processAllPending [sampleEnv "x.jpg"]
        (processAllPending [sampleEnv "x.jpg"] ([] : List StoredImage)).2).1.processed = 0 :=
  ⟨by simp, rfl,
    (C8_idempotent_second_run [sampleEnv "x.jpg"] [] (by simp)
        (fun f hf => by simp only [List.mem_singleton] at hf; rw [hf]; rfl)).1⟩

/-- Unfolding `listMin` on a cons of a nonempty tail. -/
theorem listMin_cons (x y : ℝ) (t : List ℝ) :
    listMin (x :: y :: t) = min x (listMin (y :: t)) := rfl

/-- The minimum of a nonempty list is one of its elements. -/
theorem listMin_mem : ∀ l : List ℝ, l ≠ [] → listMin l ∈ l := by
  intro l
  induction l with
  | nil => intro h; exact absurd rfl h
  | cons x xs ih =>
    intro _
    cases xs with
    | nil => simp [listMin]
    | cons y t =>
      rw [listMin_cons]
      rcases min_cases x (listMin (y :: t)) with ⟨h, _⟩ | ⟨h, _⟩
      · rw [h]; exact List.mem_cons_self _ _
      · rw [h]; exact List.mem_cons_of_mem _ (ih (by simp))

/-- A strict-`<` update step is just `min`. -/
theorem step_min (b d : ℝ) : (if d < b then d else b) = min b d := by
  rw [min_def]
  split_ifs <;> linarith

/-- Folding `min` over a nonempty list from any start equals `min` of the
start and the list minimum. -/
theorem foldl_min_eq : ∀ (l : List ℝ), l ≠ [] → ∀ a : ℝ, l.foldl min a = min a (listMin l) := by
  intro l
  induction l with
  | nil => intro h; exact absurd rfl h
  | cons x xs ih =>
    intro _ a
    cases xs with
    | nil => simp [listMin]
    | cons y t =>
      rw [listMin_cons, List.foldl_cons, ih (by simp) (min a x), min_assoc]

/-- The first component of the `_match_face` fold is the running minimum of
the distances, started from `1.0`. -/
theorem faceFold_fst (q : List ℝ) :
    ∀ (encs : List (List ℝ)) (acc : ℝ × ℤ × ℤ),
      (encs.foldl
          (fun acc e =>
            let d := euclid q e
            if d < acc.1 then (d, acc.2.2, acc.2.2 + 1) else (acc.1, acc.2.1, acc.2.2 + 1))
          acc).1 =
        (encs.map (euclid q)).foldl min acc.1 := by
  intro encs
  induction encs with
  | nil => intro acc; rfl
  | cons e es ih =>
    intro acc
    simp only [List.foldl_cons, List.map_cons]
    rw [ih]
    by_cases h : euclid q e < acc.1
    · simp only [h, if_pos]
      rw [min_eq_right (le_of_lt h)]
    · simp only [h, if_neg, not_false_iff]
      rw [min_eq_left (not_lt.mp h)]

/-- When every distance is at least the running best, the `_match_face` fold
never updates: the best distance and index keep their initial values. -/
theorem faceFold_far (q : List ℝ) :
    ∀ (encs : List (List ℝ)) (acc : ℝ × ℤ × ℤ), (∀ e ∈ encs, acc.1 ≤ euclid q e) →
      encs.foldl
          (fun acc e =>
            let d := euclid q e
            if d < acc.1 then (d, acc.2.2, acc.2.2 + 1) else (acc.1, acc.2.1, acc.2.2 + 1))
          acc =
        (acc.1, acc.2.1, acc.2.2 + encs.length) := by
  intro encs
  induction encs with
  | nil => intro acc _; simp
  | cons e es ih =>
    intro acc hfar
    simp only [List.foldl_cons]
    rw [if_neg (not_lt.mpr (hfar e (List.mem_cons_self _ _)))]
    rw [ih (acc.1, acc.2.1, acc.2.2 + 1) (fun x hx => hfar x (List.mem_cons_of_mem _ hx))]
    simp only [Prod.mk.injEq, List.length_cons]
    refine ⟨trivial, trivial, by push_cast; ring⟩

/-- Distances are square roots, hence nonnegative; so is their minimum. -/
theorem listMin_dists_nonneg (q : List ℝ) (encs : List (List ℝ)) (hne : encs ≠ []) :
    0 ≤ listMin (encs.map (euclid q)) := by
  have hmem := listMin_mem (encs.map (euclid q)) (by simpa using hne)
  obtain ⟨e, _, heq⟩ := List.mem_map.mp hmem
  rw [← heq]
  exact Real.sqrt_nonneg _

/-- The `_match_face` score is the piecewise formula applied to the true
minimum distance (the cap at 1.0 changes nothing: the formula is 0 there). -/
theorem matchFace_score_eq (θ : ℝ) (q : List ℝ) (encs : List (List ℝ))
    (hθ0 : 0 < θ) (hθ1 : θ < 1) (hne : encs ≠ []) :
    (matchFace θ q encs).score = faceScoreFormula θ (listMin (encs.map (euclid q))) := by
  have hmapne : encs.map (euclid q) ≠ [] := by simpa using hne
  have hfold : (faceFold q encs).1 = min 1 (listMin (encs.map (euclid q))) := by
    rw [faceFold, faceFold_fst q encs (1, -1, 0)]
    exact foldl_min_eq _ hmapne 1
  have hemp : encs.isEmpty = false := by simpa [List.isEmpty_iff] using hne
  set d := listMin (encs.map (euclid q)) with hd
  by_cases hlt : d < 1
  · have hmin : min 1 d = d := min_eq_right (le_of_lt hlt)
    by_cases hdθ : d ≤ θ
    · simp only [matchFace, hemp, Bool.false_eq_true, if_false, hfold, hmin, hdθ, if_pos,
        faceScoreFormula]
    · simp only [matchFace, hemp, Bool.false_eq_true, if_false, hfold, hmin, hdθ, if_neg,
        not_false_iff, faceScoreFormula]
  · have hmin : min 1 d = 1 := min_eq_left (not_lt.mp hlt)
    have h1d : (1 : ℝ) ≤ d := not_lt.mp hlt
    have hno : ¬ (1 : ℝ) ≤ θ := not_le.mpr hθ1
    have hnd : ¬ d ≤ θ := not_le.mpr (lt_of_lt_of_le hθ1 h1d)
    have hsub : (1 : ℝ) - θ ≠ 0 := ne_of_gt (by linarith)
    simp only [matchFace, hemp, Bool.false_eq_true, if_false, hfold, hmin, hno, if_neg,
      not_false_iff, faceScoreFormula, hnd]
    rw [div_self hsub]
    have hge : (1 : ℝ) ≤ (d - θ) / (1 - θ) := by
      rw [le_div_iff (by linarith)]
      linarith
    have : 50 - (d - θ) / (1 - θ) * 50 ≤ 0 := by nlinarith
    rw [max_eq_left (by norm_num), max_eq_left (by linarith)]

/-- The piecewise face-score formula is non-increasing on [0, 1]. -/
theorem faceScoreFormula_anti (θ : ℝ) (hθ0 : 0 < θ) (hθ1 : θ < 1) :
    ∀ d₁ d₂ : ℝ, 0 ≤ d₁ → d₁ ≤ d₂ → d₂ ≤ 1 →
      faceScoreFormula θ d₂ ≤ faceScoreFormula θ d₁ := by
  intro d₁ d₂ h0 h12 h21
  simp only [faceScoreFormula]
  by_cases h1 : d₁ ≤ θ <;> by_cases h2 : d₂ ≤ θ
  · rw [if_pos h1, if_pos h2]
    have : 100 - d₂ / θ * 50 ≤ 100 - d₁ / θ * 50 := by
      have := (div_le_div_right hθ0).mpr h12
      nlinarith
    exact max_le_max le_rfl this
  · rw [if_pos h1, if_neg h2]
    have hd2 : θ < d₂ := not_le.mp h2
    have hup : max 0 (50 - (d₂ - θ) / (1 - θ) * 50) ≤ 50 := by
      refine max_le (by norm_num) ?_
      have : 0 ≤ (d₂ - θ) / (1 - θ) := div_nonneg (by linarith) (by linarith)
      nlinarith
    have hlo : (50 : ℝ) ≤ max 0 (100 - d₁ / θ * 50) := by
      refine le_trans ?_ (le_max_right _ _)
      have : d₁ / θ ≤ 1 := (div_le_one hθ0).mpr h1
      nlinarith
    exact le_trans hup hlo
  · exact absurd (le_trans h12 h2) h1
  · rw [if_neg h1, if_neg h2]
    have : 50 - (d₂ - θ) / (1 - θ) * 50 ≤ 50 - (d₁ - θ) / (1 - θ) * 50 := by
      have := (div_le_div_right (show (0 : ℝ) < 1 - θ by linarith)).mpr
        (sub_le_sub_right h12 θ)
      nlinarith
    exact max_le_max le_rfl this

/-- C3: with a nonempty face-encoding list and `d` the minimum Euclidean
distance from the query to the record's embeddings, the face score is the
piecewise threshold formula (`max(0, 100 - d/θ·50)` for `d ≤ θ`, otherwise
`max(0, 50 - (d-θ)/(1-θ)·50)`); the formula gives 100 at distance 0, 50 at
the threshold, and is non-increasing on [0, 1]; a record with no embeddings
scores 0 with `matched = false`. -/
theorem C3_face_score (θ : ℝ) (q : List ℝ) (encs : List (List ℝ))
    (hθ0 : 0 < θ) (hθ1 : θ < 1) (hne : encs ≠ []) :
    (matchFace θ q encs).score = faceScoreFormula θ (listMin (encs.map (euclid q))) ∧
    faceScoreFormula θ 0 = 100 ∧
    faceScoreFormula θ θ = 50 ∧
    (∀ d₁ d₂ : ℝ, 0 ≤ d₁ → d₁ ≤ d₂ → d₂ ≤ 1 →
        faceScoreFormula θ d₂ ≤ faceScoreFormula θ d₁) ∧
    (matchFace θ q []).score = 0 ∧ (matchFace θ q []).matched = false := by
  refine ⟨matchFace_score_eq θ q encs hθ0 hθ1 hne, ?_, ?_,
    faceScoreFormula_anti θ hθ0 hθ1, rfl, rfl⟩
  · rw [faceScoreFormula, if_pos (le_of_lt hθ0)]
    rw [zero_div, zero_mul, sub_zero, max_eq_right (by norm_num)]
  · rw [faceScoreFormula, if_pos le_rfl, div_self (ne_of_gt hθ0)]
    norm_num

/-- Closed instantiation of `C3_face_score` at the default threshold 0.6 with
a one-dimensional query at distance 0. -/
theorem C3_face_score_witness :
    (0 : ℝ) < 6 / 10 ∧ (6 / 10 : ℝ) < 1 ∧ ([[0]] : List (List ℝ)) ≠ [] ∧
    faceScoreFormula (6 / 10) 0 = 100 :=
  ⟨by norm_num, by norm_num, by simp,
    (C3_face_score (6 / 10) [0] [[0]] (by norm_num) (by norm_num) (by simp)).2.1⟩

/-- C10: when every stored embedding of a record lies at Euclidean distance at
least 1.0 from the query, the loop's initial best of 1.0 is never replaced:
the reported distance is 1.0 (not the true minimum), the matched face index is
-1, the record is not matched, and the score is 0. -/
theorem C10_distance_capped (θ : ℝ) (q : List ℝ) (encs : List (List ℝ))
    (hθ0 : 0 < θ) (hθ1 : θ < 1) (hne : encs ≠ [])
    (hfar : ∀ e ∈ encs, 1 ≤ euclid q e) :
    matchFace θ q encs =
      { score := 0, matched := false, distance := 1, matchedFaceIndex := some (-1) } := by
  have hemp : encs.isEmpty = false := by simpa [List.isEmpty_iff] using hne
  have hfold : faceFold q encs = (1, -1, 0 + (encs.length : ℤ)) := by
    rw [faceFold]
    exact faceFold_far q encs (1, -1, 0) (by simpa using hfar)
  have hno : ¬ (1 : ℝ) ≤ θ := not_le.mpr hθ1
  have hsub : (1 : ℝ) - θ ≠ 0 := ne_of_gt (by linarith)
  simp only [matchFace, hemp, Bool.false_eq_true, if_false, hfold, hno, if_neg, not_false_iff]
  rw [div_self hsub]
  simp only [FaceMatch.mk.injEq]
  refine ⟨?_, trivial, trivial, trivial⟩
  rw [max_eq_left (by norm_num)]

/-- Closed instantiation of `C10_distance_capped`: a one-dimensional query at
distance 2 from the single stored embedding. -/
theorem C10_distance_capped_witness :
    (1 : ℝ) ≤ euclid [0] [2] ∧
    matchFace (6 / 10) [0] [[2]] =
      { score := 0, matched := false, distance := 1, matchedFaceIndex := some (-1) } := by
  have hd : euclid [0] [[2]].head! = 2 := by
    simp only [List.head!, euclid, List.zip, List.zipWith, List.map, List.sum_cons,
      List.sum_nil]
    rw [show ((0 : ℝ) - 2) ^ 2 + 0 = 2 ^ 2 by norm_num]
    exact Real.sqrt_sq (by norm_num)
  have hfar : ∀ e ∈ ([[2]] : List (List ℝ)), 1 ≤ euclid [0] e := by
    intro e he
    simp only [List.mem_singleton] at he
    subst he
    rw [show ([2] : List ℝ) = [[2]].head! from rfl, hd]
    norm_num
  exact ⟨hfar [2] (by simp),
    C10_distance_capped (6 / 10) [0] [[2]] (by norm_num) (by norm_num) (by simp) hfar⟩

/-- The strict-`<` fold over swatch distances is a `min`-fold. -/
theorem foldl_if_min (sc : QColor) :
    ∀ (l : List SwatchS) (a : ℝ),
      l.foldl (fun b sw => if colorDistance sc sw.rgb < b then colorDistance sc sw.rgb else b)
          a =
        (l.map (fun sw => colorDistance sc sw.rgb)).foldl min a := by
  intro l
  induction l with
  | nil => intro a; rfl
  | cons x xs ih =>
    intro a
    simp only [List.foldl_cons, List.map_cons]
    rw [step_min, ih]

/-- The inner loop of `_match_colors` computes the minimum distance to the
flattened swatches. -/
theorem bestColorDist_eq (sc : QColor) (swatches : List SwatchS) (h : swatches ≠ []) :
    bestColorDist sc swatches =
      listMin (swatches.map (fun sw => colorDistance sc sw.rgb)) := by
  cases swatches with
  | nil => exact absurd rfl h
  | cons s rest =>
    rw [bestColorDist, foldl_if_min sc rest (colorDistance sc s.rgb)]
    cases rest with
    | nil => rfl
    | cons y t =>
      rw [foldl_min_eq _ (by simp)]
      simp only [List.map_cons]
      rw [listMin_cons]

/-- On nonnegative distances the code's per-color score agrees with the
claim-shaped formula whose second branch divides by the threshold. -/
theorem colorScorePerQuery_eq_amended (θ d : ℝ) (hθ : 0 < θ) (hd : 0 ≤ d) :
    colorScorePerQuery θ d = colorScorePerQueryAmended θ d := by
  rw [colorScorePerQuery, colorScorePerQueryAmended]
  by_cases h : d ≤ θ
  · rw [if_pos h, if_pos h]
    have hdiv : d / θ ≤ 1 := (div_le_one hθ).mpr h
    rw [max_eq_right (by nlinarith)]
  · rw [if_neg h, if_neg h]

/-- C2, as stated, is false: the code's above-threshold branch divides by
`threshold`, not `(1 - threshold)`.  Query color (0,0,0) against a single
stored swatch (60,0,0) at distance 60 with the default threshold 50 scores 40,
while the claimed formula (mean of the spec's per-color scores) gives
50 + 500/49 ≈ 60.2. -/
theorem C2_counterexample :
    matchColors 50 [⟨0, 0, 0⟩] [⟨[⟨⟨60, 0, 0⟩⟩]⟩] ≠
      colorScorePerQuerySpec 50
        (bestColorDist ⟨0, 0, 0⟩ (allImageColors [⟨[⟨⟨60, 0, 0⟩⟩]⟩])) := by
  have hdist : colorDistance ⟨0, 0, 0⟩ ⟨60, 0, 0⟩ = 60 := by
    rw [colorDistance]
    rw [show ((0 : ℝ) - 60) ^ 2 + ((0 : ℝ) - 0) ^ 2 + ((0 : ℝ) - 0) ^ 2 = 60 ^ 2 by norm_num]
    exact Real.sqrt_sq (by norm_num)
  have hall : allImageColors [⟨[⟨⟨60, 0, 0⟩⟩]⟩] = [⟨⟨60, 0, 0⟩⟩] := by
    simp [allImageColors]
  have hbest : bestColorDist ⟨0, 0, 0⟩ (allImageColors [⟨[⟨⟨60, 0, 0⟩⟩]⟩]) = 60 := by
    rw [hall, bestColorDist, List.foldl_nil, hdist]
  have hlhs : matchColors 50 [⟨0, 0, 0⟩] [⟨[⟨⟨60, 0, 0⟩⟩]⟩] = 40 := by
    rw [matchColors]
    rw [if_neg (by simp)]
    rw [if_neg (by simp [allImageColors])]
    simp only [List.map_cons, List.map_nil, List.sum_cons, List.sum_nil, List.length_cons,
      List.length_nil]
    rw [hbest, colorScorePerQuery, if_neg (by norm_num)]
    rw [max_eq_right (by norm_num)]
    norm_num
  rw [hlhs, hbest, colorScorePerQuerySpec, if_neg (by norm_num)]
  rw [max_eq_right (by norm_num)]
  norm_num

/-- C2 (amended): for a nonempty query color list and a record with at least
one swatch, the color score is the arithmetic mean over query colors of the
per-color score of the minimum Euclidean RGB distance `d` to any swatch of any
of the record's ColorSets, where the per-color score is
`max(0, 100 - (d/threshold)·50)` when `d ≤ threshold` and
`max(0, 50 - ((d-threshold)/threshold)·50)` otherwise (the second branch
divides by the threshold, not `1 - threshold`); a record with no colors or an
empty query scores 0. -/
theorem C2_color_score (θ : ℝ) (sc : List QColor) (sets : List ColorSetS)
    (hθ : 0 < θ) (hsc : sc ≠ []) (hsw : allImageColors sets ≠ []) :
    matchColors θ sc sets =
      (sc.map (fun c =>
          colorScorePerQueryAmended θ
            (listMin ((allImageColors sets).map (fun sw => colorDistance c sw.rgb))))).sum /
        sc.length ∧
    (∀ sets' : List ColorSetS, matchColors θ [] sets' = 0) ∧
    (∀ sc' : List QColor, matchColors θ sc' [] = 0) ∧
    (∀ (sc' : List QColor) (sets' : List ColorSetS),
        allImageColors sets' = [] → matchColors θ sc' sets' = 0) := by
  refine ⟨?_, ?_, ?_, ?_⟩
  · have hsets : sets ≠ [] := by
      intro h; subst h; exact hsw (by simp [allImageColors])
    rw [matchColors]
    rw [if_neg (by simp [hsc, hsets])]
    rw [if_neg (by simpa [List.isEmpty_iff] using hsw)]
    congr 1
    congr 1
    apply List.map_congr_left
    intro c _
    rw [bestColorDist_eq c _ hsw]
    refine colorScorePerQuery_eq_amended θ _ hθ ?_
    have hmem := listMin_mem ((allImageColors sets).map (fun sw => colorDistance c sw.rgb))
      (by simpa using hsw)
    obtain ⟨w, _, heq⟩ := List.mem_map.mp hmem
    rw [← heq]
    exact Real.sqrt_nonneg _
  · intro sets'; rw [matchColors, if_pos (by simp)]
  · intro sc'; rw [matchColors, if_pos (by simp)]
  · intro sc' sets' h
    rw [matchColors]
    by_cases hc : sc'.isEmpty || sets'.isEmpty
    · rw [if_pos hc]
    · rw [if_neg hc, if_pos (by simpa [List.isEmpty_iff] using h)]

/-- Closed instantiation of `C2_color_score` at the default threshold 50 with
one query color and one stored swatch. -/
theorem C2_color_score_witness :
    (0 : ℝ) < 50 ∧ ([⟨0, 0, 0⟩] : List QColor) ≠ [] ∧
    allImageColors [⟨[⟨⟨0, 0, 0⟩⟩]⟩] ≠ [] ∧
    matchColors 50 ([] : List QColor) [⟨[⟨⟨0, 0, 0⟩⟩]⟩] = 0 :=
  ⟨by norm_num, by simp, by simp [allImageColors],
    (C2_color_score 50 [⟨0, 0, 0⟩] [⟨[⟨⟨0, 0, 0⟩⟩]⟩] (by norm_num) (by simp)
        (by simp [allImageColors])).2.1 [⟨[⟨⟨0, 0, 0⟩⟩]⟩]⟩

/-- Inserting into a sorted-by-descending-score list only passes over strictly
greater scores, so the entries of any fixed score keep their order. -/
theorem filter_orderedInsert_score (s : ℝ) (a : SearchResult) :
    ∀ l : List SearchResult,
      (List.orderedInsert scoreGE a l).filter (fun x => decide (x.score = s)) =
        if a.score = s then a :: l.filter (fun x => decide (x.score = s))
        else l.filter (fun x => decide (x.score = s)) := by
  intro l
  induction l with
  | nil =>
    simp only [List.orderedInsert_nil]
    by_cases h : a.score = s
    · rw [if_pos h]; simp [List.filter_cons, h]
    · rw [if_neg h]; simp [List.filter_cons, h]
  | cons b t ih =>
    simp only [List.orderedInsert]
    by_cases hr : scoreGE a b
    · rw [if_pos hr]
      by_cases h : a.score = s
      · rw [if_pos h]
        simp [List.filter_cons, h]
      · rw [if_neg h]
        simp [List.filter_cons, h]
    · rw [if_neg hr]
      by_cases h : a.score = s
      · have hb : ¬ b.score = s := by
          intro hbs
          exact hr (le_of_eq (hbs.trans h.symm))
        rw [if_pos h, List.filter_cons, ih, if_pos h, List.filter_cons]
        simp [hb]
      · rw [if_neg h, List.filter_cons, ih, if_neg h, List.filter_cons]

/-- Stability of the sort in `search`: filtering the sorted results to one
score value gives exactly the same-score entries in their original order. -/
theorem filter_insertionSort_score (s : ℝ) :
    ∀ l : List SearchResult,
      (List.insertionSort scoreGE l).filter (fun x => decide (x.score = s)) =
        l.filter (fun x => decide (x.score = s)) := by
  intro l
  induction l with
  | nil => rfl
  | cons a t ih =>
    simp only [List.insertionSort]
    rw [filter_orderedInsert_score s a (List.insertionSort scoreGE t), ih]
    by_cases h : a.score = s
    · rw [if_pos h, List.filter_cons]
      simp [h]
    · rw [if_neg h, List.filter_cons]
      simp [h]

/-- Filtering a take is an initial segment of filtering the whole list. -/
theorem take_filter_front {α : Type} (p : α → Bool) :
    ∀ (l : List α) (k : ℕ), ∃ t, (l.take k).filter p ++ t = l.filter p := by
  intro l
  induction l with
  | nil => intro k; exact ⟨[], by simp⟩
  | cons x xs ih =>
    intro k
    cases k with
    | zero => exact ⟨(x :: xs).filter p, by simp⟩
    | succ n =>
      obtain ⟨t, ht⟩ := ih n
      refine ⟨t, ?_⟩
      rw [List.take_succ_cons, List.filter_cons, List.filter_cons]
      by_cases hp : p x
      · simp only [hp, if_pos, List.cons_append, ht]
      · simp only [hp, Bool.false_eq_true, if_false, ht]

/-- Membership in the pre-sort result list of `search`: exactly the scored
records at or above the floor of 20. -/
theorem searchQualifying_mem (θf θc : ℝ) (fe : List ℝ) (cols : List QColor) (fw cw : ℝ)
    (records : List ImageRec) (x : SearchResult) :
    x ∈ searchQualifying θf θc fe cols fw cw records ↔
      (20 : ℝ) ≤ x.score ∧ ∃ img ∈ records, scoreRecord θf θc fw cw fe cols img = some x := by
  simp only [searchQualifying, List.mem_filterMap]
  constructor
  · rintro ⟨img, himg, heq⟩
    cases hsr : scoreRecord θf θc fw cw fe cols img with
    | none =>
      rw [hsr] at heq
      exact absurd heq (by simp)
    | some r =>
      rw [hsr] at heq
      simp only at heq
      by_cases hs : (20 : ℝ) ≤ r.score
      · rw [if_pos hs] at heq
        obtain rfl : r = x := by simpa using heq
        exact ⟨hs, img, himg, hsr⟩
      · rw [if_neg hs] at heq
        exact absurd heq (by simp)
  · rintro ⟨hs, img, himg, hsr⟩
    refine ⟨img, himg, ?_⟩
    rw [hsr]
    simp only
    rw [if_pos hs]

/-- C4: the search result list holds only records whose combined score is at
least the floor of 20 (and, whenever the qualifying records fit under the
cap, exactly those records); it holds at most the configured maximum number of
results; it is sorted by combined score descending; and the sort is stable —
for every score value, the results with that score are an initial segment of
the qualifying records with that score in feature-store iteration order. -/
theorem C4_search_results (θf θc : ℝ) (maxResults : ℕ) (fe : List ℝ) (cols : List QColor)
    (fw cw : ℝ) (limit : Option ℕ) (records : List ImageRec) :
    (search θf θc maxResults fe cols fw cw limit records).length ≤ effLimit limit maxResults ∧
    (∀ x ∈ search θf θc maxResults fe cols fw cw limit records,
        (20 : ℝ) ≤ x.score ∧ ∃ img ∈ records, scoreRecord θf θc fw cw fe cols img = some x) ∧
    (∀ x, x ∈ searchQualifying θf θc fe cols fw cw records ↔
        (20 : ℝ) ≤ x.score ∧ ∃ img ∈ records, scoreRecord θf θc fw cw fe cols img = some x) ∧
    ((searchQualifying θf θc fe cols fw cw records).length ≤ effLimit limit maxResults →
      ∀ x, x ∈ search θf θc maxResults fe cols fw cw limit records ↔
        x ∈ searchQualifying θf θc fe cols fw cw records) ∧
    (search θf θc maxResults fe cols fw cw limit records).Pairwise scoreGE ∧
    (∀ s : ℝ, ∃ t,
        (search θf θc maxResults fe cols fw cw limit records).filter
            (fun x => decide (x.score = s)) ++ t =
          (searchQualifying θf θc fe cols fw cw records).filter
            (fun x => decide (x.score = s))) := by
  refine ⟨?_, ?_, fun x => searchQualifying_mem θf θc fe cols fw cw records x, ?_, ?_, ?_⟩
  · rw [search]
    exact List.length_take_le _ _
  · intro x hx
    rw [search] at hx
    have hx' : x ∈ List.insertionSort scoreGE (searchQualifying θf θc fe cols fw cw records) :=
      List.take_subset _ _ hx
    have hxq : x ∈ searchQualifying θf θc fe cols fw cw records :=
      (List.perm_insertionSort scoreGE _).mem_iff.mp hx'
    exact (searchQualifying_mem θf θc fe cols fw cw records x).mp hxq
  · intro hlen x
    rw [search, List.take_of_length_le
      (by rw [(List.perm_insertionSort scoreGE _).length_eq]; exact hlen)]
    exact (List.perm_insertionSort scoreGE _).mem_iff
  · rw [search]
    exact (List.sorted_insertionSort scoreGE _).sublist (List.take_sublist _ _)
  · intro s
    obtain ⟨t, ht⟩ := take_filter_front (fun x => decide (x.score = s))
      (List.insertionSort scoreGE (searchQualifying θf θc fe cols fw cw records))
      (effLimit limit maxResults)
    refine ⟨t, ?_⟩
    rw [search, ht, filter_insertionSort_score]

/-- Closed instantiation of `C4_search_results` on a face-only query over one
record: the result list respects the default cap. -/
theorem C4_search_results_witness :
    (search (6 / 10) 50 20 [0] [] (7 / 10) (3 / 10) none
        [⟨"i1", "a.jpg", [[0]], []⟩]).length ≤ effLimit none 20 :=
  (C4_search_results (6 / 10) 50 20 [0] [] (7 / 10) (3 / 10) none
      [⟨"i1", "a.jpg", [[0]], []⟩]).1

/-- Closed instantiation of `C6_person_color_sets` at a concrete person box
(x=0, y=0, w=10, h=7). -/
theorem C6_person_color_sets_witness :
    (bodyRegionFromPerson { x := 0, y := 0, width := 10, height := 7 }).y =
      (0 : ℤ) + pyInt (((7 : ℤ) : ℚ) * (2 / 10)) ∧
    (bodyRegionFromPerson { x := 0, y := 0, width := 10, height := 7 }).y +
        (bodyRegionFromPerson { x := 0, y := 0, width := 10, height := 7 }).height =
      (0 : ℤ) + pyInt (((7 : ℤ) : ℚ) * (6 / 10)) ∧
    (bodyRegionFromPerson { x := 0, y := 0, width := 10, height := 7 }).x =
      (0 : ℤ) + pyInt (((10 : ℤ) : ℚ) * (1 / 10)) ∧
    (bodyRegionFromPerson { x := 0, y := 0, width := 10, height := 7 }).x +
        (bodyRegionFromPerson { x := 0, y := 0, width := 10, height := 7 }).width =
      (0 : ℤ) + pyInt (((10 : ℤ) : ℚ) * (9 / 10)) :=
  (C6_person_color_sets 1000 1000 (3 / 2) (5 / 2) (fun _ => []) []
      [{ x := 0, y := 0, width := 10, height := 7 }]).2.2
    { x := 0, y := 0, width := 10, height := 7 }

/-- Closed instantiation of `C9_watcher_fifo_dedup` at the paths "a", "b",
"c". -/
theorem C9_watcher_fifo_dedup_witness :
    addToQueue (addToQueue (addToQueue [] "a") "b") "c" = ["a", "b", "c"] ∧
    popFront (addToQueue (addToQueue (addToQueue [] "a") "b") "c") = some ("a", ["b", "c"]) ∧
    popFront ["b", "c"] = some ("b", ["c"]) ∧
    popFront ["c"] = some ("c", []) ∧ popFront ([] : List String) = none ∧
    drainOrder (addToQueue (addToQueue (addToQueue [] "a") "b") "c") = ["a", "b", "c"] :=
  C9_watcher_fifo_dedup.2.2 "a" "b" "c" (by decide) (by decide) (by decide)

end PhotoFace
